import Mathlib

/-!
Verification of the template-packer script gen_templates.py of the
moonjinja repository.  Strings are embedded as lists of characters;
Python str.replace with a one-character pattern is embedded as a
character-wise rewrite, and the main generation pass is embedded as a
pure function of the directory state it reads.
-/

/-- Constant TEMPLATE_DIR of gen_templates.py. -/
def TEMPLATE_DIR : String := "src/templates"

/-- Constant OUTPUT_FILE of gen_templates.py. -/
def OUTPUT_FILE : String := "src/template.mbt"

/-- One Python str.replace pass with a one-character pattern: every
occurrence of the character old is replaced by the list new; all other
characters pass through unchanged. -/
def replaceChar (old : Char) (new : List Char) : List Char → List Char
  | [] => []
  | c :: cs => (if c = old then new else [c]) ++ replaceChar old new cs

/-- Function escape_content of gen_templates.py: three chained replace
calls, backslash first, then double quote, then newline (the innermost
replace runs first, as in the Python chain). -/
def escape_content (content : List Char) : List Char :=
  replaceChar '\n' ['\\', 'n']
    (replaceChar '"' ['\\', '"']
      (replaceChar '\\' ['\\', '\\'] content))

/-- Character-wise form of the escape transform: the image of a single
character under escape_content. -/
def escapeChar (c : Char) : List Char :=
  if c = '\\' then ['\\', '\\']
  else if c = '"' then ['\\', '"']
  else if c = '\n' then ['\\', 'n']
  else [c]

/-- Modelled from the spec: the standard string-literal unescaping that
reverses the three escapes, mapping backslash-backslash to a backslash,
backslash-quote to a double quote and backslash-n to a newline; the spec
calls it the inverse transform of the escape.  Inputs that are not images
of the escape (a trailing lone backslash, an unknown escape pair) are
given a harmless reading, which no claim depends on. -/
def unescape : List Char → List Char
  | [] => []
  | c :: cs =>
    if c = '\\' then
      match cs with
      | [] => ['\\']
      | d :: ds =>
        if d = '\\' then '\\' :: unescape ds
        else if d = '"' then '"' :: unescape ds
        else if d = 'n' then '\n' :: unescape ds
        else d :: unescape ds
    else c :: unescape cs

lemma replaceChar_append (old : Char) (new xs ys : List Char) :
    replaceChar old new (xs ++ ys) = replaceChar old new xs ++ replaceChar old new ys := by
  induction xs with
  | nil => rfl
  | cons c cs ih => simp [replaceChar, ih]

lemma escape_content_append (s t : List Char) :
    escape_content (s ++ t) = escape_content s ++ escape_content t := by
  simp [escape_content, replaceChar_append]

lemma escape_content_singleton (c : Char) : escape_content [c] = escapeChar c := by
  by_cases h1 : c = '\\'
  · subst h1; decide
  · by_cases h2 : c = '"'
    · subst h2; decide
    · by_cases h3 : c = '\n'
      · subst h3; decide
      · simp [escape_content, escapeChar, replaceChar, h1, h2, h3]

lemma escape_content_eq_flatMap (s : List Char) : escape_content s = s.flatMap escapeChar := by
  induction s with
  | nil => rfl
  | cons c cs ih =>
    rw [List.flatMap_cons, ← ih, ← escape_content_singleton, ← escape_content_append]
    rfl

lemma unescape_cons_ne (c : Char) (cs : List Char) (h : ¬ c = '\\') :
    unescape (c :: cs) = c :: unescape cs := by
  rw [unescape.eq_def]
  simp [h]

lemma unescape_escapeChar (c : Char) (r : List Char) :
    unescape (escapeChar c ++ r) = c :: unescape r := by
  by_cases h1 : c = '\\'
  · subst h1; simp [escapeChar, unescape]
  · by_cases h2 : c = '"'
    · subst h2; simp [escapeChar, unescape]
    · by_cases h3 : c = '\n'
      · subst h3; simp [escapeChar, unescape]
      · have he : escapeChar c = [c] := by simp [escapeChar, h1, h2, h3]
        rw [he, List.singleton_append, unescape_cons_ne c r h1]

lemma unescape_escape (s : List Char) : unescape (escape_content s) = s := by
  rw [escape_content_eq_flatMap]
  induction s with
  | nil => rfl
  | cons c cs ih => rw [List.flatMap_cons, unescape_escapeChar, ih]

/-- C1: for every text input s, unescaping the escaped form of s yields s
again, so escape_content is exactly reversible by the standard
string-literal unescaping and in particular injective. -/
theorem escape_content_roundtrip :
    (∀ s : List Char, unescape (escape_content s) = s) ∧
      Function.Injective escape_content :=
  ⟨unescape_escape, Function.LeftInverse.injective unescape_escape⟩

/-- The extension filter of main: Python fname.endswith for the fixed
extension .html. -/
def htmlMatch (fname : List Char) : Bool := List.isSuffixOf ".html".data fname

/-- The match-arm line built in the loop body of main for one file, from
its name and its raw content, with the content escaped (no trailing
newline; main appends the newline when writing). -/
def entryLine (fname raw : List Char) : List Char :=
  "    \"".data ++ fname ++ "\" => return \"".data ++ escape_content raw ++ "\"".data

/-- The accumulated entries list of main when every read succeeds: one
arm per listed file whose name passes the extension filter, in listing
order. -/
def armsOf (files : List (List Char × List Char)) : List (List Char) :=
  files.filterMap (fun p => if htmlMatch p.1 then some (entryLine p.1 p.2) else none)

/-- The reading loop of main over the directory listing, where the read
result of each file is an Option (none embeds a read that raises): the
loop stops at the first failing read of a matched file and otherwise
accumulates the match-arm lines in listing order. -/
def collectEntries : List (List Char × Option (List Char)) → Option (List (List Char))
  | [] => some []
  | (fname, r) :: rest =>
    if htmlMatch fname then
      match r with
      | none => none
      | some raw => (collectEntries rest).map (fun es => entryLine fname raw :: es)
    else collectEntries rest

/-- The sequence of strings that main writes to the output file, in
write order: the function header, the match opener, one line per
accumulated entry, the fallback arm, and the two closing lines. -/
def outputWrites (entries : List (List Char)) : List (List Char) :=
  "pub fn load_template(name: String) -> String!JinjaError \x7b\n".data ::
    "  match name \x7b\n".data ::
      (entries.map (fun line => line ++ "\n".data) ++
        ["    _ => raise RenderError(\"Template not found: \" + name)\n".data,
         "  \x7d\n".data,
         "\x7d\n".data])

/-- The full text of the generated output file. -/
def render (entries : List (List Char)) : List Char := (outputWrites entries).flatten

/-- The diagnostic main prints when TEMPLATE_DIR does not exist. -/
def missingMsg : List Char := (" Folder \x27" ++ TEMPLATE_DIR ++ "\x27 not found.").data

/-- The diagnostic main prints after a successful run, with the entry
count. -/
def successMsg (n : Nat) : List Char :=
  (" Generated " ++ OUTPUT_FILE ++ " with " ++ toString n ++ " templates.").data

/-- Outcome of one invocation of main: the missing-directory early
return with its printed diagnostic, a propagated read exception, or a
successful run carrying the written output text and the printed
diagnostic. -/
inductive RunOutcome where
  | missingDir (printed : List Char)
  | readFailure
  | success (output : List Char) (printed : List Char)

/-- The function main of gen_templates.py as a pure function of the
directory state it reads: whether TEMPLATE_DIR exists, and the listing
of (filename, read result) pairs in directory order. -/
def mainRun (dirExists : Bool) (files : List (List Char × Option (List Char))) : RunOutcome :=
  if dirExists then
    match collectEntries files with
    | some es => RunOutcome.success (render es) (successMsg es.length)
    | none => RunOutcome.readFailure
  else RunOutcome.missingDir missingMsg

/-- A directory in which every read succeeds. -/
def liftFiles (files : List (List Char × List Char)) : List (List Char × Option (List Char)) :=
  files.map (fun p => (p.1, some p.2))

/-- The content of the output file after one invocation of main, given
its content before (none when the file does not exist): main overwrites
it on success and leaves it untouched on the missing-directory return
and when a read raises before the output file is opened. -/
def outputFileAfter (dirExists : Bool) (files : List (List Char × Option (List Char)))
    (prev : Option (List Char)) : Option (List Char) :=
  match mainRun dirExists files with
  | RunOutcome.success out _ => some out
  | _ => prev

/-- Modelled from the spec: the runtime semantics of the generated
MoonBit lookup function load_template, which main emits as text but
whose evaluation is not part of this repository.  The arms are tried in
order; the first arm whose name equals the queried name returns its
content, and the trailing fallback arm raises RenderError with the
message built from the queried name. -/
def load_template (entries : List (List Char × List Char)) (name : List Char) :
    Except (List Char) (List Char) :=
  match entries with
  | [] => Except.error ("Template not found: ".data ++ name)
  | (n, c) :: rest => if n = name then Except.ok c else load_template rest name

/-- Splitting a character list into its newline-separated lines, used to
state the line structure of the generated output. -/
def splitLines : List Char → List (List Char)
  | [] => [[]]
  | c :: cs =>
    if c = '\n' then [] :: splitLines cs
    else
      match splitLines cs with
      | l :: ls => (c :: l) :: ls
      | [] => [[c]]

/-- The header line of the generated output, without its newline. -/
def headerLine : List Char :=
  "pub fn load_template(name: String) -> String!JinjaError \x7b".data

/-- The match-opening line of the generated output, without its newline. -/
def matchLine : List Char := "  match name \x7b".data

/-- The fallback arm of the generated match, without its newline. -/
def fallbackLine : List Char :=
  "    _ => raise RenderError(\"Template not found: \" + name)".data

/-- The line closing the match block, without its newline. -/
def closeMatchLine : List Char := "  \x7d".data

/-- The line closing the function, without its newline. -/
def closeFnLine : List Char := "\x7d".data

/-- The lines of the generated output in order: header, match opener,
one line per entry, the fallback arm, and the two closing lines. -/
def outputLines (entries : List (List Char)) : List (List Char) :=
  headerLine :: matchLine ::
    (entries ++ [fallbackLine, closeMatchLine, closeFnLine])

/-- Comparison definition following the words of the spec on the order
of the replacements: the same three replace passes as escape_content but
with the backslash pass performed last instead of first, used to show
that the order matters. -/
def escape_content_swapped (content : List Char) : List Char :=
  replaceChar '\\' ['\\', '\\']
    (replaceChar '\n' ['\\', 'n']
      (replaceChar '"' ['\\', '"'] content))

lemma splitLines_append_nl (xs ys : List Char) (h : '\n' ∉ xs) :
    splitLines (xs ++ '\n' :: ys) = xs :: splitLines ys := by
  induction xs with
  | nil => simp [splitLines]
  | cons c cs ih =>
    have hc : ¬ c = '\n' := fun hcc => h (by simp [hcc])
    have hcs : '\n' ∉ cs := fun hm => h (List.mem_cons_of_mem _ hm)
    simp [splitLines, hc, ih hcs]

lemma splitLines_flatten (ls : List (List Char)) (tail : List Char)
    (h : ∀ l ∈ ls, '\n' ∉ l) :
    splitLines ((ls.map (fun l => l ++ ['\n'])).flatten ++ tail) = ls ++ splitLines tail := by
  induction ls with
  | nil => simp
  | cons l ls ih =>
    have hl : '\n' ∉ l := h l (by simp)
    have hls : ∀ m ∈ ls, '\n' ∉ m := fun m hm => h m (by simp [hm])
    calc splitLines (((l :: ls).map (fun m => m ++ ['\n'])).flatten ++ tail)
        = splitLines (l ++ '\n' :: ((ls.map (fun m => m ++ ['\n'])).flatten ++ tail)) := by
          simp [List.append_assoc]
      _ = l :: splitLines ((ls.map (fun m => m ++ ['\n'])).flatten ++ tail) :=
          splitLines_append_nl _ _ hl
      _ = l :: (ls ++ splitLines tail) := by rw [ih hls]
      _ = (l :: ls) ++ splitLines tail := rfl

lemma render_eq_lines (es : List (List Char)) :
    render es = ((outputLines es).map (fun l => l ++ ['\n'])).flatten := by
  simp [render, outputWrites, outputLines, headerLine, matchLine, fallbackLine,
    closeMatchLine, closeFnLine, List.append_assoc]

lemma nl_not_mem_escapeChar (c : Char) : '\n' ∉ escapeChar c := by
  by_cases h1 : c = '\\'
  · subst h1; decide
  · by_cases h2 : c = '"'
    · subst h2; decide
    · by_cases h3 : c = '\n'
      · subst h3; decide
      · simp only [escapeChar, h1, h2, h3, if_false]
        intro hm
        exact h3 (List.mem_singleton.mp hm).symm

lemma nl_not_mem_escape (s : List Char) : '\n' ∉ escape_content s := by
  rw [escape_content_eq_flatMap]
  intro hm
  rcases List.mem_flatMap.mp hm with ⟨c, _, hc⟩
  exact nl_not_mem_escapeChar c hc

lemma nl_not_mem_entryLine (fname raw : List Char) (h : '\n' ∉ fname) :
    '\n' ∉ entryLine fname raw := by
  have l1 : '\n' ∉ "    \"".data := by decide
  have l2 : '\n' ∉ "\" => return \"".data := by decide
  have l3 : '\n' ∉ "\"".data := by decide
  intro hm
  simp only [entryLine, List.mem_append] at hm
  rcases hm with ((hm | hm) | hm) | hm
  · rcases hm with hm | hm
    · exact l1 hm
    · exact h hm
  · exact l2 hm
  · exact nl_not_mem_escape raw hm
  · exact l3 hm

lemma splitLines_render (es : List (List Char)) (h : ∀ l ∈ es, '\n' ∉ l) :
    splitLines (render es) = outputLines es ++ [[]] := by
  have hall : ∀ l ∈ outputLines es, '\n' ∉ l := by
    intro l hl
    simp only [outputLines, List.mem_cons, List.mem_append, List.mem_singleton,
      List.not_mem_nil, or_false] at hl
    rcases hl with rfl | rfl | hl | rfl | rfl | rfl
    · decide
    · decide
    · exact h l hl
    · decide
    · decide
    · decide
  rw [render_eq_lines]
  calc splitLines (((outputLines es).map (fun l => l ++ ['\n'])).flatten)
      = splitLines (((outputLines es).map (fun l => l ++ ['\n'])).flatten ++ []) := by
        rw [List.append_nil]
    _ = outputLines es ++ splitLines [] := splitLines_flatten _ _ hall
    _ = outputLines es ++ [[]] := rfl

lemma armsOf_eq_filter_map (fs : List (List Char × List Char)) :
    armsOf fs = (fs.filter (fun p => htmlMatch p.1)).map (fun p => entryLine p.1 p.2) := by
  induction fs with
  | nil => rfl
  | cons p ps ih =>
    by_cases hm : htmlMatch p.1
    · simp [armsOf, List.filterMap_cons, List.filter_cons, hm] at ih ⊢
      exact ih
    · simp [armsOf, List.filterMap_cons, List.filter_cons, hm] at ih ⊢
      exact ih

lemma armsOf_filter (fs : List (List Char × List Char)) :
    armsOf (fs.filter (fun p => htmlMatch p.1)) = armsOf fs := by
  rw [armsOf_eq_filter_map, armsOf_eq_filter_map, List.filter_filter]
  simp

lemma armsOf_eq_nil (fs : List (List Char × List Char))
    (h : ∀ p ∈ fs, htmlMatch p.1 = false) : armsOf fs = [] := by
  induction fs with
  | nil => rfl
  | cons p ps ih =>
    have hp := h p (List.mem_cons_self p ps)
    have hrest := ih (fun q hq => h q (List.mem_cons_of_mem p hq))
    simp only [armsOf, List.filterMap_cons, hp] at hrest ⊢
    simpa [hp] using hrest

lemma collectEntries_lift (fs : List (List Char × List Char)) :
    collectEntries (liftFiles fs) = some (armsOf fs) := by
  induction fs with
  | nil => rfl
  | cons p ps ih =>
    obtain ⟨fname, raw⟩ := p
    by_cases hm : htmlMatch fname
    · simp [liftFiles, collectEntries, armsOf, List.filterMap_cons, hm] at ih ⊢
      simp [show collectEntries (List.map (fun p => (p.1, some p.2)) ps) =
        some (armsOf ps) from ih, armsOf]
    · simp [liftFiles, collectEntries, armsOf, List.filterMap_cons, hm] at ih ⊢
      simpa [armsOf] using ih

lemma collectEntries_none (files : List (List Char × Option (List Char)))
    (h : ∃ p ∈ files, htmlMatch p.1 = true ∧ p.2 = none) :
    collectEntries files = none := by
  induction files with
  | nil => simp at h
  | cons q qs ih =>
    obtain ⟨fname, r⟩ := q
    rcases h with ⟨p, hp, hmt, hnone⟩
    rcases List.mem_cons.mp hp with rfl | hmem
    · simp only at hmt hnone
      subst hnone
      simp [collectEntries, hmt]
    · by_cases hm : htmlMatch fname
      · cases r with
        | none => simp [collectEntries, hm]
        | some raw => simp [collectEntries, hm, ih ⟨p, hmem, hmt, hnone⟩]
      · simp only [collectEntries, hm, if_false]
        exact ih ⟨p, hmem, hmt, hnone⟩

/-- C2: on an existing directory in which every read succeeds, main
writes a single complete function text whose lines are the header, the
match opener, exactly one match arm per file passing the extension
filter in listing order, and then the fallback arm, always present and
always the last arm before the closing braces (filenames are assumed
newline-free so that each arm is one line). -/
theorem main_output_structure (fs : List (List Char × List Char))
    (hnames : ∀ p ∈ fs, '\n' ∉ p.1) :
    mainRun true (liftFiles fs) =
        RunOutcome.success (render (armsOf fs)) (successMsg (armsOf fs).length) ∧
      armsOf fs = (fs.filter (fun p => htmlMatch p.1)).map (fun p => entryLine p.1 p.2) ∧
      splitLines (render (armsOf fs)) =
        headerLine :: matchLine ::
          (armsOf fs ++ [fallbackLine, closeMatchLine, closeFnLine, []]) := by
  have harms : ∀ l ∈ armsOf fs, '\n' ∉ l := by
    intro l hl
    rw [armsOf_eq_filter_map] at hl
    rcases List.mem_map.mp hl with ⟨p, hp, rfl⟩
    exact nl_not_mem_entryLine p.1 p.2 (hnames p (List.mem_of_mem_filter hp))
  refine ⟨?_, armsOf_eq_filter_map fs, ?_⟩
  · simp [mainRun, collectEntries_lift]
  · rw [splitLines_render _ harms]
    simp [outputLines]

theorem main_output_structure_witness :
    (∀ p ∈ [("a.html".data, "hi".data)], '\n' ∉ p.1) ∧
      mainRun true (liftFiles [("a.html".data, "hi".data)]) =
        RunOutcome.success (render (armsOf [("a.html".data, "hi".data)]))
          (successMsg (armsOf [("a.html".data, "hi".data)]).length) :=
  ⟨by decide, (main_output_structure [("a.html".data, "hi".data)] (by decide)).1⟩

/-- C3: when the template directory does not exist, main returns early
with the directory-not-found diagnostic printed, leaves any previous
output file untouched, and the diagnostic names the missing folder and
contains the words not found. -/
theorem main_missing_dir (files : List (List Char × Option (List Char))) :
    mainRun false files = RunOutcome.missingDir missingMsg ∧
      (∀ prev, outputFileAfter false files prev = prev) ∧
      missingMsg = " Folder \x27src/templates\x27 not found.".data ∧
      ∃ a b, missingMsg = a ++ "not found".data ++ b := by
  refine ⟨rfl, fun prev => rfl, by decide, " Folder \x27src/templates\x27 ".data, ".".data,
    by decide⟩

/-- C4: only filenames ending in .html are processed: filtering the
listing by the extension test leaves the arms unchanged, the name a.html
passes the test while notes.txt fails it, and a directory holding
a.html and notes.txt yields exactly one arm, the one for a.html. -/
theorem extension_filter_excludes :
    (∀ fs : List (List Char × List Char),
        armsOf (fs.filter (fun p => htmlMatch p.1)) = armsOf fs) ∧
      htmlMatch "a.html".data = true ∧
      htmlMatch "notes.txt".data = false ∧
      ∀ ca cn : List Char,
        armsOf [("a.html".data, ca), ("notes.txt".data, cn)] =
          [entryLine "a.html".data ca] := by
  have h1 : htmlMatch "a.html".data = true := by decide
  have h2 : htmlMatch "notes.txt".data = false := by decide
  refine ⟨armsOf_filter, h1, h2, ?_⟩
  intro ca cn
  simp [armsOf, List.filterMap_cons, h1, h2]

/-- C5: querying the generated lookup function with a name matching no
arm reaches the fallback arm, which raises the template-not-found error
whose message carries the requested name verbatim as its suffix. -/
theorem load_template_fallback (entries : List (List Char × List Char)) (name : List Char)
    (h : ∀ e ∈ entries, e.1 ≠ name) :
    load_template entries name = Except.error ("Template not found: ".data ++ name) ∧
      ∃ pre, "Template not found: ".data ++ name = pre ++ name := by
  refine ⟨?_, "Template not found: ".data, rfl⟩
  induction entries with
  | nil => rfl
  | cons e es ih =>
    obtain ⟨n, c⟩ := e
    have hne : n ≠ name := h (n, c) (List.mem_cons_self _ _)
    simp only [load_template, hne, if_false]
    exact ih (fun q hq => h q (List.mem_cons_of_mem _ hq))

theorem load_template_fallback_witness :
    (∀ e ∈ [("a.html".data, "x".data)], e.1 ≠ "b.html".data) ∧
      (load_template [("a.html".data, "x".data)] "b.html".data =
          Except.error ("Template not found: ".data ++ "b.html".data) ∧
        ∃ pre, "Template not found: ".data ++ "b.html".data = pre ++ "b.html".data) :=
  ⟨by decide, load_template_fallback [("a.html".data, "x".data)] "b.html".data (by decide)⟩

/-- C6: the escape transform is exactly the three replacements in the
order backslash, double quote, newline; escaping backslashes first makes
the transform act on each source character independently, so backslashes
introduced by the quote and newline replacements are never re-escaped,
whereas the swapped order that escapes backslashes last re-escapes the
backslash introduced for a newline. -/
theorem escape_order_matters :
    (∀ s : List Char,
        escape_content s =
          replaceChar '\n' ['\\', 'n']
            (replaceChar '"' ['\\', '"']
              (replaceChar '\\' ['\\', '\\'] s))) ∧
      (∀ s : List Char, escape_content s = s.flatMap escapeChar) ∧
      escape_content ['\n'] = ['\\', 'n'] ∧
      escape_content_swapped ['\n'] = ['\\', '\\', 'n'] ∧
      escape_content_swapped ['\n'] ≠ escape_content ['\n'] :=
  ⟨fun _ => rfl, escape_content_eq_flatMap, by decide, by decide, by decide⟩

/-- C7: a second run over an unchanged directory state leaves the output
file exactly as the first run left it, and on a successful run the
resulting file content is a function of the listing and file contents
alone, independent of what the output file held before. -/
theorem generation_idempotent :
    (∀ (b : Bool) (files : List (List Char × Option (List Char)))
        (prev : Option (List Char)),
        outputFileAfter b files (outputFileAfter b files prev) =
          outputFileAfter b files prev) ∧
      ∀ (fs : List (List Char × List Char)) (prev : Option (List Char)),
        outputFileAfter true (liftFiles fs) prev = some (render (armsOf fs)) := by
  constructor
  · intro b files prev
    cases hE : mainRun b files <;> simp [outputFileAfter, hE]
  · intro fs prev
    simp [outputFileAfter, mainRun, collectEntries_lift]

lemma escape_content_id (s : List Char)
    (h : ∀ c ∈ s, c ≠ '\\' ∧ c ≠ '"' ∧ c ≠ '\n') : escape_content s = s := by
  induction s with
  | nil => rfl
  | cons c cs ih =>
    have hc := h c (List.mem_cons_self c cs)
    have he : escapeChar c = [c] := by simp [escapeChar, hc.1, hc.2.1, hc.2.2]
    rw [escape_content_eq_flatMap, List.flatMap_cons, he, ← escape_content_eq_flatMap,
      ih (fun d hd => h d (List.mem_cons_of_mem c hd)), List.singleton_append]

/-- C8: escape_content distributes over concatenation for all strings s
and t, and on a string free of backslashes, double quotes and newlines
it is the identity: every other character passes through unchanged. -/
theorem escape_content_hom :
    (∀ s t : List Char,
        escape_content (s ++ t) = escape_content s ++ escape_content t) ∧
      ∀ s : List Char,
        (∀ c ∈ s, c ≠ '\\' ∧ c ≠ '"' ∧ c ≠ '\n') → escape_content s = s :=
  ⟨escape_content_append, escape_content_id⟩

theorem escape_content_hom_witness :
    escape_content ("a\\b".data ++ "c\"d\n".data) =
        escape_content "a\\b".data ++ escape_content "c\"d\n".data ∧
      (∀ c ∈ "ab".data, c ≠ '\\' ∧ c ≠ '"' ∧ c ≠ '\n') ∧
      escape_content "ab".data = "ab".data :=
  ⟨escape_content_hom.1 "a\\b".data "c\"d\n".data, by decide,
    escape_content_hom.2 "ab".data (by decide)⟩

/-- C9: on an existing directory with no file matching the extension the
run still succeeds: the written output consists of exactly the header,
the match opener, the fallback arm and the two closing lines, with no
per-file arm, and the reported entry count is zero. -/
theorem main_empty_dir (fs : List (List Char × List Char))
    (h : ∀ p ∈ fs, htmlMatch p.1 = false) :
    mainRun true (liftFiles fs) = RunOutcome.success (render []) (successMsg 0) ∧
      splitLines (render []) =
        [headerLine, matchLine, fallbackLine, closeMatchLine, closeFnLine, []] ∧
      successMsg 0 = " Generated src/template.mbt with 0 templates.".data := by
  have ha : armsOf fs = [] := armsOf_eq_nil fs h
  refine ⟨?_, ?_, by decide⟩
  · simp [mainRun, collectEntries_lift, ha]
  · have hs := splitLines_render [] (by simp)
    simpa [outputLines] using hs

theorem main_empty_dir_witness :
    (∀ p ∈ [("notes.txt".data, "x".data)], htmlMatch p.1 = false) ∧
      mainRun true (liftFiles [("notes.txt".data, "x".data)]) =
        RunOutcome.success (render []) (successMsg 0) :=
  ⟨by decide, (main_empty_dir [("notes.txt".data, "x".data)] (by decide)).1⟩

/-- C10: every matched file is read before the output file is opened, so
a run in which some matched file fails to read terminates as a
propagated read failure and leaves the pre-existing output file exactly
as it was, never partially written. -/
theorem read_failure_no_write (files : List (List Char × Option (List Char)))
    (prev : Option (List Char))
    (h : ∃ p ∈ files, htmlMatch p.1 = true ∧ p.2 = none) :
    mainRun true files = RunOutcome.readFailure ∧
      outputFileAfter true files prev = prev := by
  have hc := collectEntries_none files h
  constructor
  · simp [mainRun, hc]
  · simp [outputFileAfter, mainRun, hc]

theorem read_failure_no_write_witness :
    (∃ p ∈ [("a.html".data, (none : Option (List Char)))],
        htmlMatch p.1 = true ∧ p.2 = none) ∧
      (mainRun true [("a.html".data, (none : Option (List Char)))] =
          RunOutcome.readFailure ∧
        outputFileAfter true [("a.html".data, (none : Option (List Char)))]
            (some "old".data) = some "old".data) :=
  ⟨by decide,
    read_failure_no_write [("a.html".data, (none : Option (List Char)))]
      (some "old".data) (by decide)⟩
